import Mathlib

/-!
# Verification of the keyframe animation interpolation engine

Shallow embedding of `components/VideoPlayer.tsx` (the keyframe
interpolation core of the AI motion-graphic studio) together with the
Remotion library functions it calls (`interpolate`, `interpolateColors`),
and proofs or refutations of the specification claims about it.

JavaScript numbers along the modeled code paths are either finite values
or `NaN` (no value in the modeled pipeline can become `±Infinity`:
Remotion's `interpolate` rejects infinite range entries, and the modeled
parsers only produce finite decimals).  We therefore model a JS number as
`JSNum` (= `NaN` or an exact rational); float rounding is not modeled —
every claim under verification is about exact decimal inputs.  Functions
that can throw in JS (Remotion's `interpolate` validates its ranges and
throws on invalid ones) return `Option`, `none` standing for the thrown
exception.
-/

set_option allowUnsafeReducibility true

section VideoPlayerModel

attribute [local semireducible] Rat.add Rat.sub Rat.mul Rat.div Rat.inv

/-- A JavaScript number along the modeled code paths: `NaN` or a finite
value (represented exactly as a rational). -/
inductive JSNum where
  | nan : JSNum
  | fin : ℚ → JSNum
deriving DecidableEq, Repr

namespace JSNum

/-- JS `===` on numbers: `NaN === NaN` is `false`; finite values compare
by value. -/
def jsEq : JSNum → JSNum → Bool
  | fin a, fin b => a = b
  | _, _ => false

/-- JS `+`: `NaN` absorbs. -/
def add : JSNum → JSNum → JSNum
  | fin a, fin b => fin (a + b)
  | _, _ => nan

/-- JS `-`: `NaN` absorbs. -/
def sub : JSNum → JSNum → JSNum
  | fin a, fin b => fin (a - b)
  | _, _ => nan

/-- JS `*`: `NaN` absorbs (in JS even `0 * NaN = NaN`). -/
def mul : JSNum → JSNum → JSNum
  | fin a, fin b => fin (a * b)
  | _, _ => nan

/-- JS `Math.min`: returns `NaN` if either argument is `NaN`. -/
def jsMin : JSNum → JSNum → JSNum
  | fin a, fin b => fin (min a b)
  | _, _ => nan

end JSNum

/-- Extrapolation behaviour of Remotion's `interpolate` outside the input
range.  The source only ever uses the default `extend` and `clamp` (the
third Remotion option, `identity`, is never used in this repository and
is omitted). -/
inductive Extrap where
  | extend : Extrap
  | clamp : Extrap
deriving DecidableEq, Repr

/-- Remotion's `findRange(input, inputRange)`: the index of the segment of
`inputRange` used for interpolation.  The JS loop is
`for (i = 1; i < inputRange.length - 1; ++i) if (inputRange[i] >= input) break; return i - 1;`
— i.e. the first interior index whose entry is `≥ input`, minus one, and
the last segment when no interior entry qualifies.  The structural
recursion below computes the same index: on a list of length ≤ 2 the loop
body never runs and the result is `0`; otherwise position 1 is tested and
on failure the search continues in the tail with the result shifted
by one. -/
def findRange (input : ℚ) : List ℚ → ℕ
  | _ :: x1 :: x2 :: rest =>
      if input ≤ x1 then 0 else findRange input (x1 :: x2 :: rest) + 1
  | _ => 0

/-- Remotion's `interpolateFunction` on one segment
`[inputMin, inputMax] → [outputMin, outputMax]`: clamp or extend the
input according to the extrapolation options, short-circuit when the two
output endpoints are `===`-equal or the two input endpoints coincide, and
otherwise map linearly.  Output endpoints are JS numbers (possibly
`NaN`); the input side is always finite in the modeled pipeline. -/
def interpolateFunction (input inputMin inputMax : ℚ) (outputMin outputMax : JSNum)
    (eL eR : Extrap) : JSNum :=
  let r1 := if input < inputMin then (match eL with | .clamp => inputMin | .extend => input)
            else input
  let r2 := if r1 > inputMax then (match eR with | .clamp => inputMax | .extend => r1)
            else r1
  if outputMin.jsEq outputMax then outputMin
  else if inputMin = inputMax then (if input ≤ inputMin then outputMin else outputMax)
  else outputMin.add ((JSNum.fin ((r2 - inputMin) / (inputMax - inputMin))).mul
        (outputMax.sub outputMin))

/-- `checkValidInputRange`: Remotion requires the input range to be
strictly monotonically increasing (it throws otherwise). -/
def strictlyIncreasing : List ℚ → Bool
  | [] => true
  | [_] => true
  | a :: b :: rest => a < b && strictlyIncreasing (b :: rest)

/-- Remotion's `interpolate(input, inputRange, outputRange, options)`.
Validation (`checkInfiniteRange`, `checkValidInputRange`) throws — modeled
as `none` — when the ranges differ in length, have fewer than two entries,
or the input range is not strictly increasing.  `NaN` entries in the
*output* range pass validation (`typeof NaN === 'number'` and
`NaN !== ±Infinity`) and flow into the result.  On valid ranges the
segment is selected by `findRange` and mapped by `interpolateFunction`. -/
def interpolate (input : ℚ) (inputRange : List ℚ) (outputRange : List JSNum)
    (eL eR : Extrap) : Option JSNum :=
  if inputRange.length = outputRange.length ∧ 2 ≤ inputRange.length ∧
      strictlyIncreasing inputRange then
    let r := findRange input inputRange
    some (interpolateFunction input (inputRange.getD r 0) (inputRange.getD (r + 1) 0)
      (outputRange.getD r .nan) (outputRange.getD (r + 1) .nan) eL eR)
  else none

example : interpolate 45 [18, 72] [.fin 0, .fin 1] .clamp .clamp = some (.fin (1/2)) := by
  decide

example : interpolate 90 [18, 72] [.fin 0, .fin 1] .clamp .clamp = some (.fin 1) := by
  decide

example : interpolate 100 [0, 90] [.fin 0, .fin 1] .extend .extend = some (.fin (10/9)) := by
  decide

/-! ## String-level helpers: JS `parseFloat`, number formatting, and the
`parseTransform` regex scanner -/

/-- Numeric value of a run of decimal digit characters. -/
def digitsVal (ds : List Char) : ℕ :=
  ds.foldl (fun n c => 10 * n + (c.toNat - 48)) 0

/-- Split a character list into its leading run of decimal digits and the
rest. -/
def takeDigits (cs : List Char) : List Char × List Char :=
  (cs.takeWhile Char.isDigit, cs.dropWhile Char.isDigit)

/-- The rational value of a decimal literal with integer digits `ids` and
fractional digits `fds`. -/
def decimalVal (ids fds : List Char) : ℚ :=
  (digitsVal ids : ℚ) + (digitsVal fds : ℚ) / (10 : ℚ) ^ fds.length

/-- JS `parseFloat(s)`: skip leading whitespace, then parse the longest
prefix of the form `[+-]? digits? (. digits?)? ([eE][+-]?digits)?` that
contains at least one mantissa digit; anything else (including the empty
prefix) gives `NaN`.  The special literal `Infinity`, which no modeled
input produces, is not represented (`JSNum` has no infinities). -/
def parseFloatJS (s : String) : JSNum :=
  let cs := s.data.dropWhile (fun c => c = ' ' || c = '\t' || c = '\n' || c = '\r')
  let (neg, cs) :=
    match cs with
    | '-' :: rest => (true, rest)
    | '+' :: rest => (false, rest)
    | rest => (false, rest)
  let (ids, cs) := takeDigits cs
  let (fds, cs) :=
    match cs with
    | '.' :: rest => takeDigits rest
    | rest => ([], rest)
  if ids.isEmpty && fds.isEmpty then .nan
  else
    let mantissa := decimalVal ids fds
    let expo : ℤ :=
      match cs with
      | 'e' :: rest | 'E' :: rest =>
        let (eneg, rest) :=
          match rest with
          | '-' :: rest2 => (true, rest2)
          | '+' :: rest2 => (false, rest2)
          | rest2 => (false, rest2)
        let (eds, _) := takeDigits rest
        if eds.isEmpty then 0 else (if eneg then -(digitsVal eds : ℤ) else (digitsVal eds : ℤ))
      | _ => 0
    .fin ((if neg then -mantissa else mantissa) * (10 : ℚ) ^ expo)

/-- JS default number→string conversion, for numbers with a finite decimal
expansion (integers print with no point, other values with the shortest
exact decimal).  Every IEEE double has a finite decimal expansion, so the
fallback branch (rendered `p/q`) corresponds to no JS value; it is only
reachable at model-level rationals such as `1/3` that no verified claim
evaluates. -/
def numToString (q : ℚ) : String :=
  if q.den = 1 then toString q.num
  else
    match (List.range 40).find? (fun k => (q * (10 : ℚ) ^ (k + 1)).den = 1) with
    | some k =>
        let k := k + 1
        let m := (q * (10 : ℚ) ^ k).num
        let sign := if m < 0 then "-" else ""
        let fs := toString (m.natAbs % 10 ^ k)
        let pad := String.mk (List.replicate (k - fs.length) '0')
        sign ++ toString (m.natAbs / 10 ^ k) ++ "." ++ pad ++ fs
    | none => toString q.num ++ "/" ++ toString q.den

/-- JS `String(n)` on a number. -/
def JSNum.toJSString : JSNum → String
  | .nan => "NaN"
  | .fin q => numToString q

/-- A CSS style value as authored in a keyframe's `style` object: a JS
number or a string (the two value shapes `React.CSSProperties` admits for
the animatable properties). -/
inductive CSSValue where
  | num : JSNum → CSSValue
  | str : String → CSSValue
deriving DecidableEq, Repr

/-- JS `String(v)` on a style value. -/
def cssToString : CSSValue → String
  | .num n => n.toJSString
  | .str s => s

/-- `parseFloat(String(v))` — the coercion the opacity branch applies to
each keyframe value.  On a number, `String` then `parseFloat` round-trips
(including `NaN`); on a string, `parseFloat` parses leniently. -/
def toNumber : CSSValue → JSNum
  | .num n => n
  | .str s => parseFloatJS s

/-- JS word characters, `\w` = `[A-Za-z0-9_]`. -/
def isWordChar (c : Char) : Bool :=
  c.isAlpha || c.isDigit || c = '_'

/-- The search performed by `valStr.match(/(-?\d*\.?\d+)(.*)/)` *at one
position*: an optional `-`, then either digits, or digits `.` digits, or
`.` digits — with the regex-backtracking consequence that when a `.` is
not followed by a digit the match ends before the `.`.  Returns the
matched numeric value and the remaining characters (capture group 2). -/
def matchNumberHere (cs : List Char) : Option (ℚ × List Char) :=
  let (neg, cs0) := match cs with
    | '-' :: rest => (true, rest)
    | rest => (false, rest)
  let (ids, cs1) := takeDigits cs0
  let signed (v : ℚ) : ℚ := if neg then -v else v
  match cs1 with
  | '.' :: afterDot =>
      let (fds, cs2) := takeDigits afterDot
      if ¬fds.isEmpty then some (signed (decimalVal ids fds), cs2)
      else if ¬ids.isEmpty then some (signed (decimalVal ids []), cs1)
      else none
  | _ => if ¬ids.isEmpty then some (signed (decimalVal ids []), cs1) else none

/-- The full (unanchored) search of `/(-?\d*\.?\d+)(.*)/`: the match at the
leftmost position where one exists. -/
def searchNumber : List Char → Option (ℚ × List Char)
  | [] => none
  | c :: cs =>
      match matchNumberHere (c :: cs) with
      | some r => some r
      | none => searchNumber cs

/-- One global-regex scan of `/(\w+)\(([^)]+)\)/g` as in `parseTransform`:
at each position, a maximal word-character run followed by `(`, a
non-empty run of non-`)` characters, and `)`; on a match the scan resumes
after the closing parenthesis, on a failure at the next character.  `fuel`
bounds the recursion (each step consumes at least one character, so the
initial character count suffices). -/
def scanTransformMatches : ℕ → List Char → List (String × String)
  | 0, _ => []
  | _, [] => []
  | fuel + 1, c :: cs =>
      let full := c :: cs
      let w := full.takeWhile isWordChar
      let afterW := full.drop w.length
      match afterW with
      | '(' :: inner0 =>
          if w.isEmpty then scanTransformMatches fuel cs
          else
            let inner := inner0.takeWhile (fun ch => ch ≠ ')')
            let afterInner := inner0.drop inner.length
            match afterInner with
            | ')' :: rest =>
                if inner.isEmpty then scanTransformMatches fuel cs
                else (String.mk w, String.mk inner) :: scanTransformMatches fuel rest
            | _ => scanTransformMatches fuel cs
      | _ => scanTransformMatches fuel cs

/-- JS object insertion: assigning an existing key updates it in place
(keeping its position in key order); a new key is appended. -/
def assocInsert (l : List (String × ℚ × String)) (k : String) (v : ℚ × String) :
    List (String × ℚ × String) :=
  if l.any (fun p => p.1 = k) then l.map (fun p => if p.1 = k then (k, v) else p)
  else l ++ [(k, v)]

/-- `parseTransform(transform)` from `VideoPlayer.tsx`: run the
`name(argument)` regex over the string, and for each match extract a
leading signed float and trailing unit from the argument via
`valStr.match(/(-?\d*\.?\d+)(.*)/)`, dropping arguments with no numeric
part.  `undefined` (or a missing property) yields the empty mapping.  The
result is an ordered association list standing for the JS object
`Record<string, {value, unit}>` in key-insertion order. -/
def parseTransform : Option String → List (String × ℚ × String)
  | none => []
  | some s =>
      (scanTransformMatches s.data.length s.data).foldl
        (fun acc m =>
          match searchNumber m.2.data with
          | some (v, unitCs) => assocInsert acc m.1 (v, String.mk unitCs)
          | none => acc)
        []

example : parseTransform (some "translateX(0px) scale(1)") =
    [("translateX", 0, "px"), ("scale", 1, "")] := by
  decide

example : parseTransform (some "garbage") = [] := by
  decide

example : parseFloatJS "abc" = .nan := by
  decide

example : parseFloatJS "12.5px" = .fin (25/2) := by
  decide

/-! ## Data model (`types.ts`) -/

/-- `AnimationKeyframe` from `types.ts`: `{ at: number; style: ... }`.
`at` is a Lean keyword, hence the guillemets.  The `style` object is an
association list in key-insertion order (JS object key order); authored
keys are unique. -/
structure AnimationKeyframe where
  «at» : ℚ
  style : List (String × CSSValue)
deriving DecidableEq, Repr

/-- JS `kf.style[prop]`: `none` models `undefined`. -/
def styleGet (kf : AnimationKeyframe) (prop : String) : Option CSSValue :=
  (kf.style.find? (fun p => p.1 = prop)).map (fun p => p.2)

/-- `AnimationElement` from `types.ts`. -/
structure AnimationElement where
  id : String
  type : String
  shape : Option String
  text : Option String
  keyframes : List AnimationKeyframe
deriving DecidableEq, Repr

/-- `Scene` from `types.ts`. -/
structure Scene where
  animationElements : List AnimationElement
  cameraAnimation : Option (List AnimationKeyframe)
  imageUrl : Option String
  backgroundColor : Option String
deriving DecidableEq, Repr

/-- `VideoResult` from `types.ts`.  `scenes` is typed as a plain array,
but `Animation` guards `!scenes`, so at runtime it may be absent — modeled
as an `Option`. -/
structure VideoResult where
  scenes : Option (List Scene)
  narration : Option (List String)
  aspectRatio : String
  textColor : String
  transparentBackground : Bool
  backgroundColor : Option String
deriving DecidableEq, Repr

/-! ## The style resolver (`useAnimatedStyle`) -/

/-- One insertion step of the (ES2019-stable) comparator sort
`[...keyframes].sort((a, b) => a.at - b.at)`: an element is inserted
after all strictly smaller positions and before equal ones that were
later in the original array — i.e. equal positions keep their original
relative order. -/
def insertByAt (x : AnimationKeyframe) : List AnimationKeyframe → List AnimationKeyframe
  | [] => [x]
  | y :: ys => if y.«at» < x.«at» then y :: insertByAt x ys else x :: y :: ys

/-- Stable sort of the keyframes by `at` (the source's
`sortedKeyframes`). -/
def sortByAt : List AnimationKeyframe → List AnimationKeyframe
  | [] => []
  | x :: xs => insertByAt x (sortByAt xs)

/-- JS `Set.add` / object-key insertion: first insertion fixes the
position, re-insertion is a no-op. -/
def insertUnique (l : List String) (x : String) : List String :=
  if l.any (fun y => y = x) then l else l ++ [x]

/-- The `properties` set: union of all style keys over the sorted
keyframes, in first-seen order (JS `Set` iterates in insertion order). -/
def collectProps (kfs : List AnimationKeyframe) : List String :=
  kfs.foldl (fun acc kf => kf.style.foldl (fun acc2 p => insertUnique acc2 p.1) acc) []

/-- The raw `kf.style.transform` value handed to `parseTransform`
(`regex.exec` coerces a non-string argument to a string). -/
def transformArg (kf : AnimationKeyframe) : Option String :=
  (styleGet kf "transform").map cssToString

/-- Whether `pat` is a prefix of the second list. -/
def isLeadingRun : List Char → List Char → Bool
  | [], _ => true
  | _ :: _, [] => false
  | a :: as, b :: bs => a = b && isLeadingRun as bs

/-- Substring containment on character lists. -/
def containsSubChars (pat : List Char) : List Char → Bool
  | [] => pat.isEmpty
  | c :: cs => isLeadingRun pat (c :: cs) || containsSubChars pat cs

/-- JS `String.prototype.includes` (substring containment). -/
def containsSub (s pat : String) : Bool := containsSubChars pat.data s.data

/-- `func.includes('scale') ? 1 : 0` — the identity default for a channel
with no prior value. -/
def channelDefaultValue (func : String) : ℚ :=
  if containsSub func "scale" then 1 else 0

/-- `func.includes('rotate') ? 'deg' : (func.includes('translate') ? 'px' : '')`. -/
def channelDefaultUnit (func : String) : String :=
  if containsSub func "rotate" then "deg"
  else if containsSub func "translate" then "px" else ""

/-- The mutable state of the per-channel `sortedKeyframes.forEach` loop
(lines 68–90 of `VideoPlayer.tsx`): the carried value/unit and the two
ranges built up so far. -/
structure ChannelState where
  lastValue : Option ℚ
  lastUnit : Option String
  inputRange : List ℚ
  outputRange : List ℚ
deriving DecidableEq, Repr

/-- One iteration of the per-channel loop body, exactly as in the source:
initialise the unit to the channel default on first touch; when this
keyframe's transform parses an entry for `func`, take its value (and its
unit while the carried unit still equals the default); otherwise carry the
previous value, defaulting on first touch; then push
`(kf.at * duration, lastValue)`. -/
def channelStep (func : String) (duration : ℚ) (st : ChannelState)
    (kf : AnimationKeyframe) : ChannelState :=
  let parsed := parseTransform (transformArg kf)
  let defaultValue := channelDefaultValue func
  let defaultUnit := channelDefaultUnit func
  let lastUnit0 := match st.lastUnit with | none => defaultUnit | some u => u
  match parsed.find? (fun p => p.1 = func) with
  | some p =>
      { lastValue := some p.2.1
        lastUnit := some (if lastUnit0 = defaultUnit then p.2.2 else lastUnit0)
        inputRange := st.inputRange ++ [kf.«at» * duration]
        outputRange := st.outputRange ++ [p.2.1] }
  | none =>
      let lv := match st.lastValue with | none => defaultValue | some v => v
      { lastValue := some lv
        lastUnit := some lastUnit0
        inputRange := st.inputRange ++ [kf.«at» * duration]
        outputRange := st.outputRange ++ [lv] }

/-- `funcInputRange` / `funcOutputRange` / final unit for one channel:
the loop above folded over *all* sorted keyframes (not only those that
define `transform`). -/
def channelRanges (func : String) (duration : ℚ)
    (sorted : List AnimationKeyframe) : ChannelState :=
  sorted.foldl (channelStep func duration) ⟨none, none, [], []⟩

/-- `allFuncs`: the set of transform function names appearing in the
keyframes that define `transform`, in first-seen order. -/
def collectFuncs (keyframesForProp : List AnimationKeyframe) : List String :=
  keyframesForProp.foldl
    (fun acc kf => (parseTransform (transformArg kf)).foldl
      (fun a p => insertUnique a p.1) acc) []

/-- The `allFuncs.forEach` loop: for each channel with more than one range
entry, interpolate (default options — linear extension on both sides) and
render `func(value+unit)`; a thrown interpolation error (`none`) aborts
the whole resolution. -/
def buildTransforms (funcs : List String) (duration frame : ℚ)
    (sorted : List AnimationKeyframe) : Option (List String) :=
  match funcs with
  | [] => some []
  | f :: fs =>
      let st := channelRanges f duration sorted
      if st.inputRange.length > 1 then do
        let v ← interpolate frame st.inputRange (st.outputRange.map .fin) .extend .extend
        let rest ← buildTransforms fs duration frame sorted
        pure ((f ++ "(" ++ v.toJSString ++ (st.lastUnit.getD "") ++ ")") :: rest)
      else buildTransforms fs duration frame sorted

/-- The `transform` branch of `useAnimatedStyle` (lines 59–97): all
channels, joined with spaces (`finalTransforms.join(' ')`). -/
def resolveTransform (keyframesForProp sorted : List AnimationKeyframe)
    (duration frame : ℚ) : Option String :=
  (buildTransforms (collectFuncs keyframesForProp) duration frame sorted).map
    (fun ts => String.intercalate " " ts)

/-- Hexadecimal digit predicate. -/
def isHexDigit (c : Char) : Bool :=
  c.isDigit || ('a' ≤ c && c ≤ 'f') || ('A' ≤ c && c ≤ 'F')

/-- Value of a hexadecimal digit character. -/
def hexVal (c : Char) : ℕ :=
  if c.isDigit then c.toNat - 48
  else if 'a' ≤ c ∧ c ≤ 'f' then c.toNat - 87
  else if 'A' ≤ c ∧ c ≤ 'F' then c.toNat - 55
  else 0

/-- Parse a `#rrggbb` CSS color.  Remotion's color normaliser accepts more
syntaxes (named colors, `rgb()`, `#rgb`, …); no claim under verification
evaluates a color, so the model restricts the grammar to 6-digit hex and
treats everything else as the thrown "invalid color" error. -/
def parseHexColor (s : String) : Option (ℕ × ℕ × ℕ) :=
  match s.data with
  | '#' :: r1 :: r2 :: g1 :: g2 :: b1 :: [b2] =>
      if [r1, r2, g1, g2, b1, b2].all isHexDigit then
        some (16 * hexVal r1 + hexVal r2, 16 * hexVal g1 + hexVal g2,
          16 * hexVal b1 + hexVal b2)
      else none
  | _ => none

/-- JS `Math.round` (round half toward positive infinity). -/
def jsRound (q : ℚ) : ℤ := ⌊q + 1 / 2⌋

/-- Remotion's `interpolateColors`: normalise every output color,
interpolate each RGB channel linearly with clamping at both ends, round,
and render as `rgba(r, g, b, a)` (alpha is 1 for opaque colors). -/
def interpolateColors (input : ℚ) (inputRange : List ℚ)
    (outputRange : List String) : Option String := do
  let rgbs ← outputRange.mapM parseHexColor
  let r ← interpolate input inputRange (rgbs.map (fun c => .fin (c.1 : ℚ))) .clamp .clamp
  let g ← interpolate input inputRange (rgbs.map (fun c => .fin (c.2.1 : ℚ))) .clamp .clamp
  let b ← interpolate input inputRange (rgbs.map (fun c => .fin (c.2.2 : ℚ))) .clamp .clamp
  match r, g, b with
  | .fin rv, .fin gv, .fin bv =>
      pure ("rgba(" ++ toString (jsRound rv) ++ ", " ++ toString (jsRound gv) ++ ", " ++
        toString (jsRound bv) ++ ", 1)")
  | _, _, _ => none

/-- The body of the `properties.forEach` for one property (lines 39–107):
filter the sorted keyframes to those defining the property, short-circuit
a single keyframe to its constant value, and otherwise dispatch on the
property name — linear interpolation with clamping for `opacity` (values
coerced by `parseFloat(String(v ?? 1))`), color interpolation for
`color`/`backgroundColor`, the channel algebra for `transform`, and step
selection for everything else.  The result is the list of style entries
the property contributes (`[]` when it contributes none); `none` models a
thrown exception.  The `getD` defaults on looked-up values are unreachable
(the filter guarantees presence) except for the opacity `?? 1`, which is
the source's own fallback. -/
def resolveProp (prop : String) (sorted : List AnimationKeyframe)
    (duration frame : ℚ) : Option (List (String × CSSValue)) :=
  let keyframesForProp := sorted.filter (fun kf => (styleGet kf prop).isSome)
  match keyframesForProp with
  | [] => some []
  | [kf] => some [(prop, (styleGet kf prop).getD (.str ""))]
  | kf0 :: kf1 :: rest =>
      let kfs := kf0 :: kf1 :: rest
      let inputRange := kfs.map (fun kf => kf.«at» * duration)
      if prop = "opacity" then
        let outputRange := kfs.map
          (fun kf => toNumber ((styleGet kf "opacity").getD (.num (.fin 1))))
        (interpolate frame inputRange outputRange .clamp .clamp).map
          (fun v => [("opacity", .num v)])
      else if prop = "color" ∨ prop = "backgroundColor" then
        let outputRange := kfs.map (fun kf => cssToString ((styleGet kf prop).getD (.str "")))
        (interpolateColors frame inputRange outputRange).map (fun s => [(prop, .str s)])
      else if prop = "transform" then
        (resolveTransform kfs sorted duration frame).map (fun s => [("transform", .str s)])
      else
        some [(prop, kfs.foldl
          (fun cur kf => if kf.«at» * duration ≤ frame then (styleGet kf prop).getD (.str "") else cur)
          ((styleGet kf0 prop).getD (.str "")))]

/-- The `properties.forEach` loop over a fixed property order: each
property appends its entries to the style; a thrown exception aborts
everything. -/
def resolveProps (props : List String) (sorted : List AnimationKeyframe)
    (duration frame : ℚ) : Option (List (String × CSSValue)) :=
  match props with
  | [] => some []
  | p :: ps => do
      let e ← resolveProp p sorted duration frame
      let rest ← resolveProps ps sorted duration frame
      pure (e ++ rest)

/-- `useAnimatedStyle(keyframes, duration)` at the current `frame`: empty
or missing keyframes give the empty style; otherwise sort by `at`, collect
the union of property names, and resolve each.  The resolved style is an
association list in property first-seen order. -/
def useAnimatedStyle (keyframes : Option (List AnimationKeyframe))
    (duration frame : ℚ) : Option (List (String × CSSValue)) :=
  match keyframes with
  | none => some []
  | some kfs =>
      if kfs.length < 1 then some []
      else
        let sorted := sortByAt kfs
        resolveProps (collectProps sorted) sorted duration frame

/-! ## `AnimatedElement`: base/animated style merge -/

/-- JS truthiness of a style value (`if (baseStyle.transform && animatedStyle.transform)`):
a string is truthy iff non-empty; a number is truthy iff finite and
non-zero. -/
def jsTruthy : CSSValue → Bool
  | .str s => s ≠ ""
  | .num (.fin q) => q ≠ 0
  | .num .nan => false

/-- The element base style's centering transform. -/
def baseTransform : String := "translate(-50%, -50%)"

/-- The final `transform` of an `AnimatedElement` (lines 141–145): the
spread `{...baseStyle, ...animatedStyle}` lets an animated `transform`
entry override the base centering transform, and only when *both* are
truthy are they concatenated (base first). -/
def elementFinalTransform (animatedStyle : List (String × CSSValue)) : CSSValue :=
  match (animatedStyle.find? (fun p => p.1 = "transform")).map (fun p => p.2) with
  | none => .str baseTransform
  | some v =>
      if jsTruthy (.str baseTransform) && jsTruthy v then
        .str (baseTransform ++ " " ++ cssToString v)
      else v

/-! ## `SceneComponent`: crossfade opacity and Ken Burns effect -/

/-- The per-scene opacity (lines 176–187) as a function of the scene's
local frame: full opacity for a sole scene; fade-out only for the first
scene (clamped both sides); fade-in only for the last (clamped both
sides); for interior scenes the minimum of a fade-in clamped only on the
right and a fade-out clamped only on the left. -/
def sceneOpacity (isFirst isLast : Bool) (sceneDuration transitionDuration frame : ℚ) :
    Option JSNum :=
  if isFirst && isLast then some (.fin 1)
  else if isFirst then
    interpolate frame [sceneDuration, sceneDuration + transitionDuration]
      [.fin 1, .fin 0] .clamp .clamp
  else if isLast then
    interpolate frame [0, transitionDuration] [.fin 0, .fin 1] .clamp .clamp
  else do
    let fadeIn ← interpolate frame [0, transitionDuration] [.fin 0, .fin 1] .extend .clamp
    let fadeOut ← interpolate frame [sceneDuration, sceneDuration + transitionDuration]
      [.fin 1, .fin 0] .clamp .extend
    pure (fadeIn.jsMin fadeOut)

/-- `getKenBurnsEffect(frame, duration, index)` (lines 164–170): progress
is `frame / duration`; even-indexed scenes interpolate scale over
`[1, 1.1]` and rotation over `[-1, 1]`, odd-indexed scenes over the
reversed pairs; no clamping (default options).  Returns the scale and
rotation numbers. -/
def getKenBurnsEffect (frame duration : ℚ) (index : ℕ) : Option (JSNum × JSNum) :=
  let progress := frame / duration
  let isEven := index % 2 = 0
  do
    let scale ← interpolate progress [0, 1]
      (if isEven then [.fin 1, .fin (11 / 10)] else [.fin (11 / 10), .fin 1]) .extend .extend
    let rotate ← interpolate progress [0, 1]
      (if isEven then [.fin (-1), .fin 1] else [.fin 1, .fin (-1)]) .extend .extend
    pure (scale, rotate)

/-- The transform string `getKenBurnsEffect` returns:
`scale(${scale}) rotate(${rotate}deg)`. -/
def kenBurnsTransform (frame duration : ℚ) (index : ℕ) : Option String :=
  (getKenBurnsEffect frame duration index).map
    (fun p => "scale(" ++ p.1.toJSString ++ ") rotate(" ++ p.2.toJSString ++ "deg)")

/-! ## `Animation`: the scene compositor -/

/-- `DURATION_PER_SCENE = 90` (3 seconds at 30 fps). -/
def DURATION_PER_SCENE : ℚ := 90

/-- `TRANSITION_DURATION = 30` (1 second). -/
def TRANSITION_DURATION : ℚ := 30

/-- One `<Sequence>` element emitted by `Animation` for a scene: its
window on the master timeline and the props handed to `SceneComponent`. -/
structure SequenceSpec where
  fromFrame : ℚ
  durationInFrames : ℚ
  scene : Scene
  isFirst : Bool
  isLast : Bool
  sceneDuration : ℚ
  transitionDuration : ℚ
  index : ℕ
deriving DecidableEq, Repr

/-- What `Animation` renders: either the descriptive placeholder fill
(black background, "Animation data is missing or invalid.") or the list of
scene sequences. -/
inductive RenderOutput where
  | placeholder (message : String)
  | composition (sequences : List SequenceSpec)
deriving DecidableEq, Repr

/-- JS truthiness of an optional string (`!scene.imageUrl`,
`backgroundColor ? ... : ...`): truthy iff present and non-empty. -/
def optStrTruthy : Option String → Bool
  | some s => s ≠ ""
  | none => false

/-- `Animation({videoResult})` (lines 225–261): an absent or empty
`scenes` array renders the placeholder; otherwise each scene `index` gets
a `<Sequence from={index * DURATION_PER_SCENE} durationInFrames={DURATION_PER_SCENE + TRANSITION_DURATION}>`
around a `SceneComponent`, with the scene's `backgroundColor` replaced by
the video-level override when the scene has no (truthy) image URL and the
override is truthy. -/
def Animation (videoResult : VideoResult) : RenderOutput :=
  match videoResult.scenes with
  | none => .placeholder "Animation data is missing or invalid."
  | some scenes =>
      if scenes.length = 0 then .placeholder "Animation data is missing or invalid."
      else
        .composition (scenes.enum.map (fun p =>
          let finalScene := { p.2 with backgroundColor :=
            if !(optStrTruthy p.2.imageUrl) && optStrTruthy videoResult.backgroundColor
            then videoResult.backgroundColor else p.2.backgroundColor }
          { fromFrame := (p.1 : ℚ) * DURATION_PER_SCENE
            durationInFrames := DURATION_PER_SCENE + TRANSITION_DURATION
            scene := finalScene
            isFirst := p.1 = 0
            isLast := p.1 = scenes.length - 1
            sceneDuration := DURATION_PER_SCENE
            transitionDuration := TRANSITION_DURATION
            index := p.1 }))

/-- The opacity a sequence's `SceneComponent` computes at a master-timeline
frame: inside `<Sequence from={f0}>`, `useCurrentFrame()` returns the
local frame `masterFrame - f0`. -/
def SequenceSpec.opacityAt (sq : SequenceSpec) (masterFrame : ℚ) : Option JSNum :=
  sceneOpacity sq.isFirst sq.isLast sq.sceneDuration sq.transitionDuration
    (masterFrame - sq.fromFrame)

/-- The sequence list of a render output (empty for the placeholder). -/
def compositionSeqs : RenderOutput → List SequenceSpec
  | .placeholder _ => []
  | .composition sqs => sqs

/-! ## Specification-side definitions

These follow the specification's words, to be compared with the
source-side definitions above. -/

/-- Spec: "piecewise-linear interpolation between the two bracketing
keyframes by timeline position; positions before the first or after the
last keyframe clamp to the first/last value (no extrapolation beyond
range)" — over points `(position, value)` sorted strictly by position. -/
def piecewiseClamped : List (ℚ × ℚ) → ℚ → ℚ
  | [], _ => 0
  | [p], _ => p.2
  | p :: q :: rest, t =>
      if t ≤ p.1 then p.2
      else if t ≤ q.1 then p.2 + (t - p.1) / (q.1 - p.1) * (q.2 - p.2)
      else piecewiseClamped (q :: rest) t

/-- Spec: step interpolation — "the active value is that of the latest
keyframe whose `at` position is ≤ `t`; before the first keyframe, use the
first keyframe's value". -/
def specStepValue (t : ℚ) (pairs : List (ℚ × CSSValue)) : CSSValue :=
  match (pairs.filter (fun p => decide (p.1 ≤ t))).getLast? with
  | some p => p.2
  | none => ((pairs.head?).map (fun p => p.2)).getD (.str "")

/-- The parsed transform entry a keyframe defines for a channel, if any. -/
def channelParsedValue (func : String) (kf : AnimationKeyframe) : Option ℚ :=
  ((parseTransform (transformArg kf)).find? (fun p => p.1 = func)).map (fun p => p.2.1)

/-- Spec: "carry forward the last known numeric value found by scanning
keyframes in chronological order; if no prior keyframe defines the
channel, use a function-specific identity default" — the sequence of
channel values, one per keyframe, produced by that scan (`prev` is the
last known value so far, `none` at the start). -/
def carryValues (func : String) (prev : Option ℚ) : List AnimationKeyframe → List ℚ
  | [] => []
  | kf :: rest =>
      let cur := match channelParsedValue func kf with
        | some v => some v
        | none => prev
      cur.getD (channelDefaultValue func) :: carryValues func cur rest

/-- Spec (scene compositor): the fade-in ramp — linear 0→1 over
`[0, transitionDuration]`, held at 1 afterwards. -/
def specFadeIn (tD f : ℚ) : ℚ := if tD ≤ f then 1 else f / tD

/-- Spec (scene compositor): the fade-out ramp — 1 until `sceneDuration`,
then linear 1→0 over the next `transitionDuration`. -/
def specFadeOut (sD tD f : ℚ) : ℚ := if f ≤ sD then 1 else 1 - (f - sD) / tD

/-- Spec: the per-scene opacity schedule as a function of the local frame
`f`: a sole scene is fully opaque; the first scene holds 1 until
`sceneDuration` then fades 1→0 over `transitionDuration` (clamped
outside); the last fades 0→1 over the first `transitionDuration` then
holds; an interior scene is the minimum of the two fades. -/
def specSceneOpacity (isFirst isLast : Bool) (sD tD f : ℚ) : ℚ :=
  if isFirst && isLast then 1
  else if isFirst then
    (if f ≤ sD then 1 else if sD + tD ≤ f then 0 else 1 - (f - sD) / tD)
  else if isLast then
    (if f ≤ 0 then 0 else if tD ≤ f then 1 else f / tD)
  else min (specFadeIn tD f) (specFadeOut sD tD f)

/-! ## Interpolation lemmas -/

/-- The clamped/extended input of `interpolateFunction` (the `result`
variable after the two extrapolation checks). -/
def clampInput (t x0 x1 : ℚ) (eL eR : Extrap) : ℚ :=
  let r1 := if t < x0 then (match eL with | .clamp => x0 | .extend => t) else t
  if r1 > x1 then (match eR with | .clamp => x1 | .extend => r1) else r1

theorem interpolateFunction_fin (t x0 x1 y0 y1 : ℚ) (eL eR : Extrap) (hx : x0 < x1) :
    interpolateFunction t x0 x1 (.fin y0) (.fin y1) eL eR =
      .fin (y0 + (clampInput t x0 x1 eL eR - x0) / (x1 - x0) * (y1 - y0)) := by
  have hne : x1 - x0 ≠ 0 := sub_ne_zero.mpr (ne_of_gt hx)
  simp only [interpolateFunction, clampInput, JSNum.jsEq, JSNum.add, JSNum.sub, JSNum.mul,
    decide_eq_true_eq]
  rw [if_neg (show ¬ x0 = x1 from ne_of_lt hx)]
  by_cases hy : y0 = y1
  · rw [if_pos hy]
    subst hy
    congr 1
    ring
  · rw [if_neg hy]

theorem clampInput_clamp_clamp (t x0 x1 : ℚ) (hx : x0 < x1) :
    clampInput t x0 x1 .clamp .clamp =
      if t ≤ x0 then x0 else if x1 ≤ t then x1 else t := by
  simp only [clampInput]
  split_ifs <;> first | rfl | linarith

theorem clampInput_extend_clamp (t x0 x1 : ℚ) (hx : x0 < x1) :
    clampInput t x0 x1 .extend .clamp = if x1 ≤ t then x1 else t := by
  simp only [clampInput]
  split_ifs <;> first | rfl | linarith

theorem clampInput_clamp_extend (t x0 x1 : ℚ) (hx : x0 < x1) :
    clampInput t x0 x1 .clamp .extend = if t ≤ x0 then x0 else t := by
  simp only [clampInput]
  split_ifs <;> first | rfl | linarith

theorem clampInput_extend_extend (t x0 x1 : ℚ) (hx : x0 < x1) :
    clampInput t x0 x1 .extend .extend = t := by
  simp only [clampInput]
  split_ifs <;> first | rfl | linarith

theorem strictlyIncreasing_head {a b : ℚ} {l : List ℚ}
    (h : strictlyIncreasing (a :: b :: l) = true) : a < b := by
  simp only [strictlyIncreasing, Bool.and_eq_true, decide_eq_true_eq] at h
  exact h.1

theorem strictlyIncreasing_tail {a b : ℚ} {l : List ℚ}
    (h : strictlyIncreasing (a :: b :: l) = true) :
    strictlyIncreasing (b :: l) = true := by
  simp only [strictlyIncreasing, Bool.and_eq_true, decide_eq_true_eq] at h
  exact h.2

/-- On two-or-more-point ranges, when the input does not lie beyond the
second point (or there is no third point), `interpolate` reduces to
`interpolateFunction` on the first segment. -/
theorem interpolate_cons2 (t x0 x1 : ℚ) (xs : List ℚ) (y0 y1 : JSNum) (ys : List JSNum)
    (eL eR : Extrap) (hlen : xs.length = ys.length)
    (hs : strictlyIncreasing (x0 :: x1 :: xs) = true)
    (ht : xs = [] ∨ t ≤ x1) :
    interpolate t (x0 :: x1 :: xs) (y0 :: y1 :: ys) eL eR =
      some (interpolateFunction t x0 x1 y0 y1 eL eR) := by
  have hfr : findRange t (x0 :: x1 :: xs) = 0 := by
    cases xs with
    | nil => rfl
    | cons x2 rest =>
        rcases ht with h | h
        · exact absurd h (by simp)
        · simp [findRange, h]
  unfold interpolate
  rw [if_pos ⟨by simp [hlen], by simp, hs⟩]
  rw [hfr]
  rfl

/-- On three-or-more-point ranges, when the input lies beyond the second
point, the first point is irrelevant: `interpolate` agrees with the tail
ranges. -/
theorem interpolate_shift (t x0 x1 x2 : ℚ) (xs : List ℚ) (y0 y1 y2 : JSNum)
    (ys : List JSNum) (eL eR : Extrap) (hlen : xs.length = ys.length)
    (hs : strictlyIncreasing (x0 :: x1 :: x2 :: xs) = true)
    (ht : ¬ t ≤ x1) :
    interpolate t (x0 :: x1 :: x2 :: xs) (y0 :: y1 :: y2 :: ys) eL eR =
      interpolate t (x1 :: x2 :: xs) (y1 :: y2 :: ys) eL eR := by
  have hfr : findRange t (x0 :: x1 :: x2 :: xs) = findRange t (x1 :: x2 :: xs) + 1 := by
    simp [findRange, ht]
  unfold interpolate
  rw [if_pos ⟨by simp [hlen], by simp, hs⟩,
    if_pos ⟨by simp [hlen], by simp, strictlyIncreasing_tail hs⟩]
  rw [hfr]
  rfl

theorem clampSegment_eq (t x0 x1 y0 y1 : ℚ) (hx : x0 < x1) :
    y0 + (clampInput t x0 x1 .clamp .clamp - x0) / (x1 - x0) * (y1 - y0) =
      if t ≤ x0 then y0
      else if t ≤ x1 then y0 + (t - x0) / (x1 - x0) * (y1 - y0) else y1 := by
  have hne : x1 - x0 ≠ 0 := sub_ne_zero.mpr (ne_of_gt hx)
  rw [clampInput_clamp_clamp t x0 x1 hx]
  rcases le_or_lt t x0 with h0 | h0
  · simp only [if_pos h0]
    field_simp
  · simp only [if_neg (not_le.mpr h0)]
    rcases lt_trichotomy t x1 with h1 | h1 | h1
    · simp only [if_neg (not_le.mpr h1), if_pos (le_of_lt h1)]
    · subst h1
      simp only [le_refl, if_pos]
    · simp only [if_pos (le_of_lt h1), if_neg (not_le.mpr h1)]
      field_simp

/-- `interpolate` with clamping at both ends, on strictly increasing
points, is exactly the specification-side clamped piecewise-linear
interpolation. -/
theorem interpolate_clamp_eq_piecewiseClamped (t : ℚ) :
    ∀ (pts : List (ℚ × ℚ)), 2 ≤ pts.length →
    strictlyIncreasing (pts.map Prod.fst) = true →
    interpolate t (pts.map Prod.fst) (pts.map (fun p => JSNum.fin p.2)) .clamp .clamp =
      some (.fin (piecewiseClamped pts t))
  | [], h, _ => absurd h (by simp)
  | [_], h, _ => absurd h (by simp)
  | [(x0, y0), (x1, y1)], _, hs => by
      have hx : x0 < x1 := strictlyIncreasing_head hs
      simp only [List.map]
      rw [interpolate_cons2 t x0 x1 [] _ _ [] .clamp .clamp rfl hs (Or.inl rfl),
        interpolateFunction_fin t x0 x1 y0 y1 .clamp .clamp hx,
        clampSegment_eq t x0 x1 y0 y1 hx]
      simp only [piecewiseClamped]
  | (x0, y0) :: (x1, y1) :: (x2, y2) :: rest, _, hs => by
      have hx : x0 < x1 := strictlyIncreasing_head hs
      have hs2 := hs
      simp only [List.map] at hs2
      by_cases ht : t ≤ x1
      · simp only [List.map]
        rw [interpolate_cons2 t x0 x1 (x2 :: List.map Prod.fst rest) (JSNum.fin y0)
            (JSNum.fin y1) (JSNum.fin y2 :: List.map (fun p => JSNum.fin p.2) rest)
            .clamp .clamp (by simp) hs2 (Or.inr ht),
          interpolateFunction_fin t x0 x1 y0 y1 .clamp .clamp hx,
          clampSegment_eq t x0 x1 y0 y1 hx]
        rcases le_or_lt t x0 with h0 | h0
        · simp only [piecewiseClamped, if_pos h0]
        · simp only [piecewiseClamped, if_neg (not_le.mpr h0), if_pos ht]
      · simp only [List.map]
        rw [interpolate_shift t x0 x1 x2 (List.map Prod.fst rest) (JSNum.fin y0)
          (JSNum.fin y1) (JSNum.fin y2) (List.map (fun p => JSNum.fin p.2) rest)
          .clamp .clamp (by simp) hs2 ht]
        have hrec := interpolate_clamp_eq_piecewiseClamped t ((x1, y1) :: (x2, y2) :: rest)
          (by simp) (strictlyIncreasing_tail hs2)
        simp only [List.map] at hrec
        rw [hrec]
        have hx0 : ¬ t ≤ x0 := fun h => ht (h.trans (le_of_lt hx))
        simp only [piecewiseClamped, if_neg hx0, if_neg ht]

theorem strictlyIncreasing_of_cons {c : ℚ} {rest : List ℚ}
    (h : strictlyIncreasing (c :: rest) = true) : strictlyIncreasing rest = true := by
  cases rest with
  | nil => rfl
  | cons d rest' => exact strictlyIncreasing_tail h

theorem strictlyIncreasing_suffix :
    ∀ (l : List ℚ) (a b : ℚ), strictlyIncreasing (l ++ [a, b]) = true → a < b
  | [], _, _, hs => strictlyIncreasing_head (by simpa using hs)
  | c :: l', a, b, hs => strictlyIncreasing_suffix l' a b
      (strictlyIncreasing_of_cons (by simpa using hs))

theorem strictlyIncreasing_mem_lt :
    ∀ (l : List ℚ) (a b : ℚ), strictlyIncreasing (l ++ [a, b]) = true →
      ∀ x ∈ l, x < b
  | [], _, _, _, x, hx => absurd hx (by simp)
  | c :: l', a, b, hs, x, hx => by
      have hs1 : strictlyIncreasing (c :: (l' ++ [a, b])) = true := by simpa using hs
      have htl : strictlyIncreasing (l' ++ [a, b]) = true := strictlyIncreasing_of_cons hs1
      rcases List.mem_cons.mp hx with rfl | hx'
      · cases l' with
        | nil =>
            have hca : x < a := strictlyIncreasing_head hs1
            exact hca.trans (strictlyIncreasing_suffix [] a b htl)
        | cons d l'' =>
            have hcd : x < d := strictlyIncreasing_head (by simpa using hs1)
            exact hcd.trans (strictlyIncreasing_mem_lt (d :: l'') a b htl d (by simp))
      · exact strictlyIncreasing_mem_lt l' a b htl x hx'

/-- Shift lemma, general tail form. -/
theorem interpolate_shift_cons (t x0 x1 : ℚ) (l : List ℚ) (y0 y1 : JSNum)
    (m : List JSNum) (eL eR : Extrap) (hlen : l.length = m.length) (hl : l ≠ [])
    (hs : strictlyIncreasing (x0 :: x1 :: l) = true) (ht : ¬ t ≤ x1) :
    interpolate t (x0 :: x1 :: l) (y0 :: y1 :: m) eL eR =
      interpolate t (x1 :: l) (y1 :: m) eL eR := by
  cases l with
  | nil => exact absurd rfl hl
  | cons x2 rest =>
      cases m with
      | nil => exact absurd hlen (by simp)
      | cons y2 mrest =>
          exact interpolate_shift t x0 x1 x2 rest y0 y1 y2 mrest eL eR
            (by simpa using hlen) hs ht

/-- With the default `extend`/`extend` options, an input at or beyond the
last range entry maps along the linear extension of the *last* segment
(no clamping). -/
theorem interpolate_extend_beyond_last (t : ℚ) :
    ∀ (xs ys : List ℚ) (xa xb ya yb : ℚ), xs.length = ys.length →
    strictlyIncreasing (xs ++ [xa, xb]) = true → xb ≤ t →
    interpolate t (xs ++ [xa, xb]) ((ys ++ [ya, yb]).map .fin) .extend .extend =
      some (.fin (ya + (t - xa) / (xb - xa) * (yb - ya)))
  | [], [], xa, xb, ya, yb, _, hs, ht => by
      have hx : xa < xb := strictlyIncreasing_head (by simpa using hs)
      simp only [List.nil_append, List.map]
      rw [interpolate_cons2 t xa xb [] _ _ [] .extend .extend rfl (by simpa using hs)
          (Or.inl rfl),
        interpolateFunction_fin t xa xb ya yb .extend .extend hx,
        clampInput_extend_extend t xa xb hx]
  | [], _ :: _, _, _, _, _, hlen, _, _ => absurd hlen (by simp)
  | _ :: _, [], _, _, _, _, hlen, _, _ => absurd hlen (by simp)
  | x :: xs, y :: ys, xa, xb, ya, yb, hlen, hs, ht => by
      have hs1 : strictlyIncreasing (x :: (xs ++ [xa, xb])) = true := by simpa using hs
      have hs' : strictlyIncreasing (xs ++ [xa, xb]) = true :=
        strictlyIncreasing_of_cons hs1
      have hab : xa < xb := strictlyIncreasing_suffix xs xa xb hs'
      have hlen' : xs.length = ys.length := by simpa using hlen
      cases xs with
      | nil =>
          cases ys with
          | cons _ _ => exact absurd hlen' (by simp)
          | nil =>
              simp only [List.cons_append, List.nil_append, List.map]
              rw [interpolate_shift_cons t x xa [xb] (.fin y) (.fin ya) [.fin yb]
                .extend .extend (by simp) (by simp) (by simpa using hs1)
                (not_le.mpr (lt_of_lt_of_le hab ht))]
              have hrec := interpolate_extend_beyond_last t [] [] xa xb ya yb rfl
                (by simpa using hs') ht
              simpa using hrec
      | cons x' xs' =>
          cases ys with
          | nil => exact absurd hlen' (by simp)
          | cons y' ys' =>
              have hx' : x' < xb := strictlyIncreasing_mem_lt (x' :: xs') xa xb
                (by simpa using hs') x' (by simp)
              have hlen2 : xs'.length = ys'.length := by simpa using hlen'
              simp only [List.cons_append, List.map, List.append_eq]
              rw [interpolate_shift_cons t x x' (xs' ++ [xa, xb]) (.fin y) (.fin y')
                ((ys' ++ [ya, yb]).map .fin) .extend .extend
                (by simp [hlen2]) (by simp) (by simpa using hs1)
                (not_le.mpr (lt_of_lt_of_le hx' ht))]
              have hrec := interpolate_extend_beyond_last t (x' :: xs') (y' :: ys')
                xa xb ya yb (by simpa using hlen') hs' ht
              simpa using hrec

/-- With the default `extend`/`extend` options, an input at or before the
first range entry maps along the linear extension of the *first* segment
(no clamping). -/
theorem interpolate_extend_before_first (t x0 x1 : ℚ) (xs : List ℚ) (y0 y1 : ℚ)
    (ys : List ℚ) (hlen : xs.length = ys.length)
    (hs : strictlyIncreasing (x0 :: x1 :: xs) = true) (ht : t ≤ x0) :
    interpolate t (x0 :: x1 :: xs) (((y0 :: y1 :: ys)).map .fin) .extend .extend =
      some (.fin (y0 + (t - x0) / (x1 - x0) * (y1 - y0))) := by
  have hx : x0 < x1 := strictlyIncreasing_head hs
  simp only [List.map]
  rw [interpolate_cons2 t x0 x1 xs (.fin y0) (.fin y1) (ys.map .fin) .extend .extend
      (by simp [hlen]) hs (Or.inr (ht.trans (le_of_lt hx))),
    interpolateFunction_fin t x0 x1 y0 y1 .extend .extend hx,
    clampInput_extend_extend t x0 x1 hx]

/-- Two-point `interpolate` in closed form. -/
theorem interpolate_two (t x0 x1 y0 y1 : ℚ) (eL eR : Extrap) (hx : x0 < x1) :
    interpolate t [x0, x1] [.fin y0, .fin y1] eL eR =
      some (.fin (y0 + (clampInput t x0 x1 eL eR - x0) / (x1 - x0) * (y1 - y0))) := by
  rw [interpolate_cons2 t x0 x1 [] _ _ [] eL eR rfl
      (by simp [strictlyIncreasing, hx]) (Or.inl rfl),
    interpolateFunction_fin t x0 x1 y0 y1 eL eR hx]

theorem jsMin_fin (a b : ℚ) : (JSNum.fin a).jsMin (.fin b) = .fin (min a b) := rfl

/-! ## Claim theorems -/

/-- C3. The per-scene opacity, as a function of the scene's local frame
`f`, matches the specified schedule: a sole scene is always fully opaque;
the first of several scenes has opacity 1 for `f ≤ sceneDuration` and then
fades linearly 1→0 over `[sceneDuration, sceneDuration+transitionDuration]`
(clamped outside); the last fades 0→1 over `[0, transitionDuration]` and
then holds 1; an interior scene's opacity is the minimum of its fade-in
ramp and its fade-out ramp, and (second conjunct) never exceeds 1. -/
theorem sceneOpacity_matches_spec (isFirst isLast : Bool) (sD tD f : ℚ)
    (htD : 0 < tD) :
    sceneOpacity isFirst isLast sD tD f =
      some (.fin (specSceneOpacity isFirst isLast sD tD f)) ∧
    (isFirst = false → isLast = false →
      specSceneOpacity isFirst isLast sD tD f ≤ 1) := by
  have hx1 : (0 : ℚ) < tD := htD
  have hx2 : sD < sD + tD := by linarith
  have hne1 : tD - 0 ≠ 0 := by linarith
  have hne2 : sD + tD - sD ≠ 0 := by linarith
  cases isFirst <;> cases isLast
  · -- interior scene
    refine ⟨?_, fun _ _ => ?_⟩
    · simp only [sceneOpacity, specSceneOpacity, Bool.and_self, Bool.false_eq_true,
        if_false]
      rw [interpolate_two f 0 tD 0 1 .extend .clamp hx1,
        interpolate_two f sD (sD + tD) 1 0 .clamp .extend hx2,
        clampInput_extend_clamp f 0 tD hx1, clampInput_clamp_extend f sD (sD + tD) hx2]
      simp only [Option.bind_eq_bind, Option.some_bind, jsMin_fin, Option.pure_def]
      congr 2
      have hIn : (0 : ℚ) + ((if tD ≤ f then tD else f) - 0) / (tD - 0) * (1 - 0) =
          specFadeIn tD f := by
        simp only [specFadeIn]
        rcases le_or_lt tD f with h | h
        · rw [if_pos h, if_pos h]
          field_simp
        · rw [if_neg (not_le.mpr h), if_neg (not_le.mpr h)]
          field_simp
      have hOut : (1 : ℚ) + ((if f ≤ sD then sD else f) - sD) / (sD + tD - sD) * (0 - 1) =
          specFadeOut sD tD f := by
        simp only [specFadeOut]
        rcases le_or_lt f sD with h | h
        · rw [if_pos h, if_pos h]
          field_simp
        · rw [if_neg (not_le.mpr h), if_neg (not_le.mpr h)]
          field_simp
          ring
      rw [hIn, hOut]
    · simp only [specSceneOpacity, Bool.and_self, Bool.false_eq_true, if_false]
      refine le_trans (min_le_right _ _) ?_
      simp only [specFadeOut]
      rcases le_or_lt f sD with h | h
      · simp [if_pos h]
      · rw [if_neg (not_le.mpr h)]
        have : 0 < (f - sD) / tD := div_pos (by linarith) htD
        linarith
  · -- last of several scenes
    refine ⟨?_, fun _ hcontra => by cases hcontra⟩
    simp only [sceneOpacity, specSceneOpacity, Bool.false_and, Bool.false_eq_true,
      if_false, if_true]
    rw [interpolate_two f 0 tD 0 1 .clamp .clamp hx1, clampInput_clamp_clamp f 0 tD hx1]
    congr 2
    rcases le_or_lt f 0 with h0 | h0
    · rw [if_pos h0, if_pos h0]
      field_simp
    · rw [if_neg (not_le.mpr h0), if_neg (not_le.mpr h0)]
      rcases le_or_lt tD f with h1 | h1
      · rw [if_pos h1, if_pos h1]
        field_simp
      · rw [if_neg (not_le.mpr h1), if_neg (not_le.mpr h1)]
        field_simp
  · -- first of several scenes
    refine ⟨?_, fun hcontra _ => by cases hcontra⟩
    simp only [sceneOpacity, specSceneOpacity, Bool.and_false, Bool.false_eq_true,
      if_false, if_true]
    rw [interpolate_two f sD (sD + tD) 1 0 .clamp .clamp hx2,
      clampInput_clamp_clamp f sD (sD + tD) hx2]
    congr 2
    rcases le_or_lt f sD with h0 | h0
    · rw [if_pos h0, if_pos h0]
      field_simp
    · rw [if_neg (not_le.mpr h0), if_neg (not_le.mpr h0)]
      rcases le_or_lt (sD + tD) f with h1 | h1
      · rw [if_pos h1, if_pos h1]
        field_simp
      · rw [if_neg (not_le.mpr h1), if_neg (not_le.mpr h1)]
        field_simp
        ring
  · -- sole scene
    exact ⟨by simp [sceneOpacity, specSceneOpacity], fun hcontra _ => by cases hcontra⟩

/-- C3 witness: an interior scene with `sceneDuration = 90`,
`transitionDuration = 30` at local frame 15, mid fade-in. -/
theorem sceneOpacity_matches_spec_witness :
    (0 : ℚ) < 30 ∧
    sceneOpacity false false 90 30 15 = some (.fin (specSceneOpacity false false 90 30 15)) ∧
    specSceneOpacity false false 90 30 15 ≤ 1 ∧
    specSceneOpacity false false 90 30 15 = 1 / 2 := by
  have h := sceneOpacity_matches_spec false false 90 30 15 (by norm_num)
  exact ⟨by norm_num, h.1, h.2 rfl rfl, by decide⟩

/-- C7. The Ken Burns background effect is a deterministic, linear
function of the progress `frame / duration` supplied by the playback
driver, alternating by scene parity: even-indexed scenes scale `1 → 1.1`
and rotate `-1deg → 1deg` as progress goes `0 → 1`; odd-indexed scenes run
both channels in reverse.  The function takes no keyframe input, so it is
independent of the authored camera keyframes. -/
theorem kenburns_parity_linear (frame duration : ℚ) (index : ℕ) (hd : duration ≠ 0) :
    getKenBurnsEffect frame duration index =
      some (if index % 2 = 0 then
          (.fin (1 + frame / duration * (1 / 10)), .fin (-1 + frame / duration * 2))
        else
          (.fin (11 / 10 - frame / duration * (1 / 10)), .fin (1 - frame / duration * 2))) := by
  have h01 : (0 : ℚ) < 1 := one_pos
  by_cases he : index % 2 = 0 <;>
    simp only [getKenBurnsEffect, he, if_true, if_false] <;>
    rw [interpolate_two (frame / duration) 0 1 _ _ .extend .extend h01,
      interpolate_two (frame / duration) 0 1 _ _ .extend .extend h01,
      clampInput_extend_extend _ 0 1 h01] <;>
    simp only [Option.bind_eq_bind, Option.some_bind, Option.pure_def, Option.some.injEq,
      Prod.mk.injEq, JSNum.fin.injEq, if_pos, if_neg, he] <;>
    constructor <;> ring

/-- C7 witness: frame 30 of a 300-frame composition, scene 0. -/
theorem kenburns_parity_linear_witness :
    (300 : ℚ) ≠ 0 ∧
    getKenBurnsEffect 30 300 0 = some (.fin (101 / 100), .fin (-4 / 5)) := by
  refine ⟨by norm_num, ?_⟩
  rw [kenburns_parity_linear 30 300 0 (by norm_num)]
  decide

/-- C8. A `VideoResult` whose `scenes` are missing or empty renders the
descriptive placeholder, and the output carries no scene sequences (no
scene or element resolution is attempted). -/
theorem empty_scenes_placeholder (vr : VideoResult)
    (h : vr.scenes = none ∨ vr.scenes = some []) :
    Animation vr = .placeholder "Animation data is missing or invalid." ∧
    compositionSeqs (Animation vr) = [] := by
  rcases h with h | h <;> simp [Animation, h, compositionSeqs]

/-- C8 witness: a concrete `VideoResult` with `scenes: []`. -/
theorem empty_scenes_placeholder_witness :
    Animation ⟨some [], none, "16:9", "#ffffff", false, none⟩ =
      .placeholder "Animation data is missing or invalid." ∧
    compositionSeqs (Animation ⟨some [], none, "16:9", "#ffffff", false, none⟩) = [] :=
  empty_scenes_placeholder ⟨some [], none, "16:9", "#ffffff", false, none⟩ (Or.inr rfl)

/-- A scene with no elements, camera, image, or background — the simplest
scene `Animation` will sequence. -/
def sceneBlank : Scene := ⟨[], none, none, none⟩

/-- A three-scene `VideoResult` (the composition of claim C6). -/
def vr3 : VideoResult := ⟨some [sceneBlank, sceneBlank, sceneBlank], none, "16:9",
  "#ffffff", false, none⟩

/-- C6 counterexample.  In the 3-scene composition with
`sceneDuration = 90`, `transitionDuration = 30`, at master frame 90 — the
frame where scene 1's window begins (scene i's window starts at `i·90`) —
scene 0's opacity is 1 while scene 1's is 0; at master frame 120 — the
frame where scene 0's window ends — they are 0 and 1.  At neither boundary
are the two opacities equal, so the claimed boundary-frame equality fails. -/
theorem crossfade_boundary_opacities_differ :
    ((compositionSeqs (Animation vr3))[0]?).map (fun sq => sq.opacityAt 90) =
      some (some (.fin 1)) ∧
    ((compositionSeqs (Animation vr3))[1]?).map (fun sq => sq.opacityAt 90) =
      some (some (.fin 0)) ∧
    ((compositionSeqs (Animation vr3))[0]?).map (fun sq => sq.opacityAt 120) =
      some (some (.fin 0)) ∧
    ((compositionSeqs (Animation vr3))[1]?).map (fun sq => sq.opacityAt 120) =
      some (some (.fin 1)) ∧
    JSNum.fin 1 ≠ JSNum.fin 0 := by
  refine ⟨by decide, by decide, by decide, by decide, by decide⟩

/-- C6 amended: the two opacities of scenes 0 and 1 coincide at the
*midpoint* of their 30-frame overlap (master frame 105), where both equal
1/2 — not at the window-boundary frames. -/
theorem crossfade_midpoint_opacities_equal :
    ((compositionSeqs (Animation vr3))[0]?).map (fun sq => sq.opacityAt 105) =
      some (some (.fin (1 / 2))) ∧
    ((compositionSeqs (Animation vr3))[1]?).map (fun sq => sq.opacityAt 105) =
      some (some (.fin (1 / 2))) := by
  refine ⟨by decide, by decide⟩

/-- C1. For an element whose keyframes define `opacity` in at least two
keyframes (with distinct scaled positions, as interpolation requires and
as sorting distinct `at`s with a positive duration produces), the
resolved opacity at scene-relative frame `frame` is exactly the
specification's clamped piecewise-linear interpolation over the points
`(at·duration, value)`: linear between bracketing keyframes, the first
value before the first keyframe, the last value after the last. -/
theorem opacity_piecewise_linear_clamped
    (sorted : List AnimationKeyframe) (duration frame : ℚ) (pts : List (ℚ × ℚ))
    (hpts : (sorted.filter (fun kf => (styleGet kf "opacity").isSome)).map
        (fun kf => (kf.«at» * duration,
          toNumber ((styleGet kf "opacity").getD (.num (.fin 1)))))
      = pts.map (fun p => (p.1, .fin p.2)))
    (h2 : 2 ≤ pts.length)
    (hs : strictlyIncreasing (pts.map Prod.fst) = true) :
    resolveProp "opacity" sorted duration frame =
      some [("opacity", .num (.fin (piecewiseClamped pts frame)))] := by
  have hlen : (sorted.filter (fun kf => (styleGet kf "opacity").isSome)).length =
      pts.length := by
    have h := congrArg List.length hpts
    simpa using h
  cases hk : sorted.filter (fun kf => (styleGet kf "opacity").isSome) with
  | nil =>
      rw [hk] at hlen
      simp at hlen
      omega
  | cons kf0 kfrest =>
      cases kfrest with
      | nil =>
          rw [hk] at hlen
          simp at hlen
          omega
      | cons kf1 rest =>
          rw [hk] at hpts
          have hin : (kf0 :: kf1 :: rest).map (fun kf => kf.«at» * duration) =
              pts.map Prod.fst := by
            have h := congrArg (List.map Prod.fst) hpts
            simpa [List.map_map, Function.comp] using h
          have hout : (kf0 :: kf1 :: rest).map
              (fun kf => toNumber ((styleGet kf "opacity").getD (.num (.fin 1)))) =
              pts.map (fun p => JSNum.fin p.2) := by
            have h := congrArg (List.map Prod.snd) hpts
            simpa [List.map_map, Function.comp] using h
          simp only [resolveProp, hk, if_true]
          rw [hin, hout, interpolate_clamp_eq_piecewiseClamped frame pts h2 hs]
          rfl

/-- The spec's clamping example: keyframes `{at:0.2, opacity:0}` and
`{at:0.8, opacity:1}`. -/
def exOpacityKfs : List AnimationKeyframe :=
  [⟨1 / 5, [("opacity", .num (.fin 0))]⟩, ⟨4 / 5, [("opacity", .num (.fin 1))]⟩]

/-- C1 witness: over a 90-frame scene the example resolves to 0 at frame
0, 1 at frame 90 (clamped), and 1/2 at frame 45 (the midpoint of
`[18, 72]`). -/
theorem opacity_piecewise_linear_clamped_witness :
    resolveProp "opacity" exOpacityKfs 90 0 = some [("opacity", .num (.fin 0))] ∧
    resolveProp "opacity" exOpacityKfs 90 90 = some [("opacity", .num (.fin 1))] ∧
    resolveProp "opacity" exOpacityKfs 90 45 = some [("opacity", .num (.fin (1 / 2)))] := by
  have h0 := opacity_piecewise_linear_clamped exOpacityKfs 90 0 [(18, 0), (72, 1)]
    (by decide) (by decide) (by decide)
  have h1 := opacity_piecewise_linear_clamped exOpacityKfs 90 90 [(18, 0), (72, 1)]
    (by decide) (by decide) (by decide)
  have h2 := opacity_piecewise_linear_clamped exOpacityKfs 90 45 [(18, 0), (72, 1)]
    (by decide) (by decide) (by decide)
  refine ⟨?_, ?_, ?_⟩
  · rw [h0]
    decide
  · rw [h1]
    decide
  · rw [h2]
    decide

theorem stepFold_eq_getLast (t : ℚ) :
    ∀ (pairs : List (ℚ × CSSValue)) (init : CSSValue),
    pairs.foldl (fun cur p => if p.1 ≤ t then p.2 else cur) init =
      (((pairs.filter (fun p => decide (p.1 ≤ t))).getLast?).map (fun p => p.2)).getD init
  | [], _ => rfl
  | p :: ps, init => by
      by_cases hp : p.1 ≤ t
      · rw [List.foldl_cons]
        simp only [if_pos hp]
        rw [stepFold_eq_getLast t ps p.2]
        have hfc : (p :: ps).filter (fun q => decide (q.1 ≤ t)) =
            p :: ps.filter (fun q => decide (q.1 ≤ t)) := by
          simp [List.filter_cons, hp]
        rw [hfc]
        cases hfl : ps.filter (fun q => decide (q.1 ≤ t)) with
        | nil => simp
        | cons q qs =>
            rw [List.getLast?_cons_cons]
            have hsome : (q :: qs).getLast?.isSome := by
              simp [List.getLast?_isSome]
            obtain ⟨b, hb⟩ := Option.isSome_iff_exists.mp hsome
            simp [hb]
      · rw [List.foldl_cons]
        simp only [if_neg hp]
        rw [stepFold_eq_getLast t ps init]
        have hfc : (p :: ps).filter (fun q => decide (q.1 ≤ t)) =
            ps.filter (fun q => decide (q.1 ≤ t)) := by
          simp [List.filter_cons, hp]
        rw [hfc]

/-- C5. For any property other than `opacity`, `color`, `backgroundColor`
and `transform` defined in at least two keyframes (with non-decreasing
scaled positions, as the resolver's sort produces), the resolved value at
scene-relative `frame` is the spec's step selection: the value of the
latest keyframe whose position `at·duration` is ≤ `frame`, and the first
keyframe's value before the first keyframe. -/
theorem step_interpolation_matches_spec (prop : String)
    (sorted : List AnimationKeyframe) (duration frame : ℚ)
    (pairs : List (ℚ × CSSValue))
    (hprop1 : prop ≠ "opacity") (hprop2 : prop ≠ "color")
    (hprop3 : prop ≠ "backgroundColor") (hprop4 : prop ≠ "transform")
    (hpairs : (sorted.filter (fun kf => (styleGet kf prop).isSome)).map
        (fun kf => (kf.«at» * duration, (styleGet kf prop).getD (.str ""))) = pairs)
    (h2 : 2 ≤ pairs.length)
    (hsorted : List.Chain' (fun a b => a.1 ≤ b.1) pairs) :
    resolveProp prop sorted duration frame =
      some [(prop, specStepValue frame pairs)] := by
  have hlen : (sorted.filter (fun kf => (styleGet kf prop).isSome)).length =
      pairs.length := by
    have h := congrArg List.length hpairs
    simpa using h
  cases hk : sorted.filter (fun kf => (styleGet kf prop).isSome) with
  | nil =>
      rw [hk] at hlen
      simp at hlen
      omega
  | cons kf0 kfrest =>
      cases kfrest with
      | nil =>
          rw [hk] at hlen
          simp at hlen
          omega
      | cons kf1 rest =>
          rw [hk] at hpairs
          simp only [resolveProp, hk, if_neg hprop1,
            if_neg (show ¬ (prop = "color" ∨ prop = "backgroundColor") by
              rintro (h | h) <;> [exact hprop2 h; exact hprop3 h]),
            if_neg hprop4, Option.some.injEq, List.cons.injEq, Prod.mk.injEq]
          refine ⟨⟨trivial, ?_⟩, trivial⟩
          have hfold : (kf0 :: kf1 :: rest).foldl
              (fun cur kf => if kf.«at» * duration ≤ frame then
                (styleGet kf prop).getD (.str "") else cur)
              ((styleGet kf0 prop).getD (.str "")) =
              pairs.foldl (fun cur p => if p.1 ≤ frame then p.2 else cur)
                ((styleGet kf0 prop).getD (.str "")) := by
            rw [← hpairs, List.foldl_map]
          rw [hfold, stepFold_eq_getLast]
          have hinit : (styleGet kf0 prop).getD (.str "") =
              ((pairs.head?).map (fun p => p.2)).getD (.str "") := by
            rw [← hpairs]
            rfl
          rw [specStepValue]
          cases hq : (pairs.filter (fun q => decide (q.1 ≤ frame))).getLast? with
          | none =>
              simp only [Option.map_none, Option.getD_none]
              rw [hinit]
              cases hph : pairs.head? with
              | none =>
                  rw [← hpairs] at hph
                  simp at hph
              | some p0 => simp
          | some q => simp

/-- The spec's step-interpolation example: `filter` defined at `at:0` and
`at:0.5` only. -/
def exFilterKfs : List AnimationKeyframe :=
  [⟨0, [("filter", .str "blur(0px)")]⟩, ⟨1 / 2, [("filter", .str "blur(10px)")]⟩]

/-- C5 witness: over a 90-frame scene the `filter` example resolves to
`blur(0px)` at frame 44 and to `blur(10px)` from frame 45 onward. -/
theorem step_interpolation_matches_spec_witness :
    resolveProp "filter" exFilterKfs 90 44 = some [("filter", .str "blur(0px)")] ∧
    resolveProp "filter" exFilterKfs 90 45 = some [("filter", .str "blur(10px)")] := by
  have h0 := step_interpolation_matches_spec "filter" exFilterKfs 90 44
    [(0, .str "blur(0px)"), (45, .str "blur(10px)")] (by decide) (by decide) (by decide)
    (by decide) (by decide) (by decide) (by norm_num [List.chain'_cons])
  have h1 := step_interpolation_matches_spec "filter" exFilterKfs 90 45
    [(0, .str "blur(0px)"), (45, .str "blur(10px)")] (by decide) (by decide) (by decide)
    (by decide) (by decide) (by decide) (by norm_num [List.chain'_cons])
  refine ⟨?_, ?_⟩
  · rw [h0]
    decide
  · rw [h1]
    decide

theorem channelStep_inputRange (func : String) (duration : ℚ) (st : ChannelState)
    (kf : AnimationKeyframe) :
    (channelStep func duration st kf).inputRange =
      st.inputRange ++ [kf.«at» * duration] := by
  simp only [channelStep]
  cases (parseTransform (transformArg kf)).find? (fun p => p.1 = func) <;> rfl

theorem foldl_channelStep_inputRange (func : String) (duration : ℚ) :
    ∀ (kfs : List AnimationKeyframe) (st : ChannelState),
    (kfs.foldl (channelStep func duration) st).inputRange =
      st.inputRange ++ kfs.map (fun kf => kf.«at» * duration)
  | [], st => by simp
  | kf :: rest, st => by
      rw [List.foldl_cons, foldl_channelStep_inputRange func duration rest,
        channelStep_inputRange]
      simp

theorem carryValues_some_getD (func : String) :
    ∀ (rest : List AnimationKeyframe) (prev : Option ℚ),
    carryValues func (some (prev.getD (channelDefaultValue func))) rest =
      carryValues func prev rest
  | [], _ => rfl
  | kf :: rest, prev => by
      simp only [carryValues]
      cases hv : channelParsedValue func kf with
      | some v => rfl
      | none =>
          simp only [Option.getD_some]
          rw [carryValues_some_getD func rest prev]

theorem foldl_channelStep_outputRange (func : String) (duration : ℚ) :
    ∀ (kfs : List AnimationKeyframe) (st : ChannelState),
    (kfs.foldl (channelStep func duration) st).outputRange =
      st.outputRange ++ carryValues func st.lastValue kfs
  | [], st => by simp [carryValues]
  | kf :: rest, st => by
      rw [List.foldl_cons, foldl_channelStep_outputRange func duration rest]
      simp only [carryValues]
      cases hv : channelParsedValue func kf with
      | some v =>
          have hfind : ∃ p, (parseTransform (transformArg kf)).find?
              (fun p => p.1 = func) = some p ∧ p.2.1 = v := by
            simp only [channelParsedValue, Option.map_eq_some'] at hv
            obtain ⟨p, hp, hv⟩ := hv
            exact ⟨p, hp, hv⟩
          obtain ⟨p, hp, hpv⟩ := hfind
          simp only [channelStep, hp, hpv, Option.getD_some]
          simp
      | none =>
          have hfind : (parseTransform (transformArg kf)).find?
              (fun p => p.1 = func) = none := by
            simp only [channelParsedValue, Option.map_eq_none'] at hv
            exact hv
          simp only [channelStep, hfind]
          cases hlv : st.lastValue with
          | none =>
              simp only [Option.getD_none]
              rw [← carryValues_some_getD func rest none]
              simp
          | some w =>
              simp only [Option.getD_some]
              simp

theorem foldl_channelStep_lastUnit_default (func : String) (duration : ℚ) :
    ∀ (kfs : List AnimationKeyframe) (st : ChannelState),
    (∀ kf ∈ kfs, channelParsedValue func kf = none) → kfs ≠ [] →
    (kfs.foldl (channelStep func duration) st).lastUnit =
      some (st.lastUnit.getD (channelDefaultUnit func))
  | [], _, _, hne => absurd rfl hne
  | kf :: rest, st, hall, _ => by
      have hfind : (parseTransform (transformArg kf)).find?
          (fun p => p.1 = func) = none := by
        have hv := hall kf (by simp)
        simp only [channelParsedValue, Option.map_eq_none'] at hv
        exact hv
      rw [List.foldl_cons]
      cases rest with
      | nil =>
          simp only [List.foldl_nil, channelStep, hfind]
          cases st.lastUnit <;> rfl
      | cons kf2 rest' =>
          rw [foldl_channelStep_lastUnit_default func duration (kf2 :: rest')
            (channelStep func duration st kf)
            (fun k hk => hall k (by simp [hk])) (by simp)]
          simp only [channelStep, hfind]
          cases st.lastUnit <;> rfl

/-- The spec's transform-channel-independence example: keyframes
`{at:0, transform:"translateX(0px) scale(1)"}` and
`{at:1, transform:"translateX(100px)"}`. -/
def exTransformKfs : List AnimationKeyframe :=
  [⟨0, [("transform", .str "translateX(0px) scale(1)")]⟩,
   ⟨1, [("transform", .str "translateX(100px)")]⟩]

/-- C2. Transform channels are built over the element's *full* keyframe
sequence: for any channel, the interpolation input range is the scaled
position of every sorted keyframe, and the output range is exactly the
spec's carry-forward scan (last known value in chronological order, with
the identity default 1 for `scale*` channels and 0 otherwise before the
first definition).  A channel never defined in any keyframe keeps the
function-specific default unit (`deg` for `rotate*`, `px` for
`translate*`, empty otherwise).  In particular (last conjunct) the spec's
example resolves at the halfway frame to `translateX(50px) scale(1)` —
`scale` carried forward, `translateX` midway with its `px` unit. -/
theorem transform_channels_carry_forward (func : String) (duration : ℚ)
    (sorted : List AnimationKeyframe) :
    (channelRanges func duration sorted).inputRange
        = sorted.map (fun kf => kf.«at» * duration) ∧
    (channelRanges func duration sorted).outputRange = carryValues func none sorted ∧
    ((∀ kf ∈ sorted, channelParsedValue func kf = none) → sorted ≠ [] →
      (channelRanges func duration sorted).lastUnit = some (channelDefaultUnit func)) ∧
    useAnimatedStyle (some exTransformKfs) 90 45 =
      some [("transform", .str "translateX(50px) scale(1)")] := by
  refine ⟨?_, ?_, ?_, by decide⟩
  · rw [channelRanges, foldl_channelStep_inputRange]
    rfl
  · rw [channelRanges, foldl_channelStep_outputRange]
    rfl
  · intro hall hne
    rw [channelRanges, foldl_channelStep_lastUnit_default func duration sorted _ hall hne]
    rfl

/-- Keyframes with no transform at all (used to exhibit the carried
default-unit behaviour of an undefined channel). -/
def exRotKfs : List AnimationKeyframe :=
  [⟨0, [("opacity", .num (.fin 1))]⟩, ⟨1, [("width", .str "10px")]⟩]

/-- C2 witness: for the never-defined `rotate` channel over keyframes with
no transform, the ranges are the full scaled positions with the identity
default 0 carried throughout and the default unit `deg`; and the spec's
halfway example evaluates as claimed. -/
theorem transform_channels_carry_forward_witness :
    (channelRanges "rotate" 90 exRotKfs).inputRange = [0, 90] ∧
    (channelRanges "rotate" 90 exRotKfs).outputRange = [0, 0] ∧
    (channelRanges "rotate" 90 exRotKfs).lastUnit = some "deg" ∧
    useAnimatedStyle (some exTransformKfs) 90 45 =
      some [("transform", .str "translateX(50px) scale(1)")] := by
  have h := transform_channels_carry_forward "rotate" 90 exRotKfs
  refine ⟨?_, ?_, ?_, h.2.2.2⟩
  · rw [h.1]
    decide
  · rw [h.2.1]
    decide
  · have := h.2.2.1 (by decide) (by decide)
    rw [this]
    decide

/-- C9 (implicit). Transform channel interpolation is *not* clamped at the
range ends: with the default options the resolver uses, a frame at or
beyond the last channel point maps along the linear extension of the last
segment (first component), and a frame at or before the first point along
the linear extension of the first segment (second component); whenever the
end segment is not flat, the extrapolated value differs from the endpoint
value, so the value is not held constant.  The scene window being
`sceneDuration + transitionDuration` frames long while positions lie in
`[0, sceneDuration]`, the beyond-last case occurs during every transition
overlap. -/
theorem transform_channel_extrapolation (func : String) (duration frame : ℚ)
    (sorted : List AnimationKeyframe) :
    (∀ (xs ys : List ℚ) (xa xb ya yb : ℚ),
      (channelRanges func duration sorted).inputRange = xs ++ [xa, xb] →
      (channelRanges func duration sorted).outputRange = ys ++ [ya, yb] →
      xs.length = ys.length →
      strictlyIncreasing (xs ++ [xa, xb]) = true → xb ≤ frame →
      interpolate frame (channelRanges func duration sorted).inputRange
          (((channelRanges func duration sorted).outputRange).map .fin) .extend .extend =
        some (.fin (ya + (frame - xa) / (xb - xa) * (yb - ya))) ∧
      (xb < frame → ya ≠ yb →
        ya + (frame - xa) / (xb - xa) * (yb - ya) ≠ yb)) ∧
    (∀ (x0 x1 : ℚ) (xs : List ℚ) (y0 y1 : ℚ) (ys : List ℚ),
      (channelRanges func duration sorted).inputRange = x0 :: x1 :: xs →
      (channelRanges func duration sorted).outputRange = y0 :: y1 :: ys →
      xs.length = ys.length →
      strictlyIncreasing (x0 :: x1 :: xs) = true → frame ≤ x0 →
      interpolate frame (channelRanges func duration sorted).inputRange
          (((channelRanges func duration sorted).outputRange).map .fin) .extend .extend =
        some (.fin (y0 + (frame - x0) / (x1 - x0) * (y1 - y0))) ∧
      (frame < x0 → y0 ≠ y1 →
        y0 + (frame - x0) / (x1 - x0) * (y1 - y0) ≠ y0)) := by
  constructor
  · intro xs ys xa xb ya yb hxr hyr hlen hs ht
    have hab : xa < xb := strictlyIncreasing_suffix xs xa xb hs
    have hne : xb - xa ≠ 0 := sub_ne_zero.mpr (ne_of_gt hab)
    constructor
    · rw [hxr, hyr]
      exact interpolate_extend_beyond_last frame xs ys xa xb ya yb hlen hs ht
    · intro hgt hyne heq
      have key : ya + (frame - xa) / (xb - xa) * (yb - ya) - yb =
          (yb - ya) * ((frame - xb) / (xb - xa)) := by
        field_simp
        ring
      have hzero : (yb - ya) * ((frame - xb) / (xb - xa)) = 0 := by
        rw [← key, heq]
        ring
      rcases mul_eq_zero.mp hzero with h | h
      · exact hyne (by linarith [sub_eq_zero.mp h])
      · have hnum : frame - xb = 0 := by
          rcases div_eq_zero_iff.mp h with h' | h'
          · exact h'
          · exact absurd h' hne
        linarith
  · intro x0 x1 xs y0 y1 ys hxr hyr hlen hs ht
    have h01 : x0 < x1 := strictlyIncreasing_head hs
    have hne : x1 - x0 ≠ 0 := sub_ne_zero.mpr (ne_of_gt h01)
    constructor
    · rw [hxr, hyr]
      exact interpolate_extend_before_first frame x0 x1 xs y0 y1 ys hlen hs ht
    · intro hlt hyne heq
      have key : y0 + (frame - x0) / (x1 - x0) * (y1 - y0) - y0 =
          (y1 - y0) * ((frame - x0) / (x1 - x0)) := by
        field_simp
        ring
      have hzero : (y1 - y0) * ((frame - x0) / (x1 - x0)) = 0 := by
        rw [← key, heq]
        ring
      rcases mul_eq_zero.mp hzero with h | h
      · exact hyne (by linarith [sub_eq_zero.mp h])
      · have hnum : frame - x0 = 0 := by
          rcases div_eq_zero_iff.mp h with h' | h'
          · exact h'
          · exact absurd h' hne
        linarith

/-- C9 witness: the `translateX` channel of the spec example (`0px → 100px`
over positions `[0, 90]`) evaluated at frame 105 — inside the transition
overlap, beyond the last keyframe — extrapolates past 100 instead of
clamping. -/
theorem transform_channel_extrapolation_witness :
    interpolate 105 (channelRanges "translateX" 90 exTransformKfs).inputRange
        (((channelRanges "translateX" 90 exTransformKfs).outputRange).map .fin)
        .extend .extend =
      some (.fin (0 + (105 - 0) / (90 - 0) * (100 - 0))) ∧
    (0 : ℚ) + (105 - 0) / (90 - 0) * (100 - 0) ≠ 100 := by
  have h := (transform_channel_extrapolation "translateX" 90 105 exTransformKfs).1
    [] [] 0 90 0 100 (by decide) (by decide) rfl (by decide) (by norm_num)
  exact ⟨h.1, h.2 (by norm_num) (by norm_num)⟩

theorem collectFuncs_nil_of_unparseable :
    ∀ (kfp : List AnimationKeyframe) (acc : List String),
    (∀ kf ∈ kfp, parseTransform (transformArg kf) = []) →
    kfp.foldl (fun acc2 kf => (parseTransform (transformArg kf)).foldl
      (fun a p => insertUnique a p.1) acc2) acc = acc
  | [], _, _ => rfl
  | kf :: rest, acc, hall => by
      rw [List.foldl_cons, hall kf (by simp), List.foldl_nil]
      exact collectFuncs_nil_of_unparseable rest acc (fun k hk => hall k (by simp [hk]))

/-- C10 (implicit). When an element defines `transform` in at least two
keyframes but every transform string is unparseable (the regex extracts
nothing), the channel set is empty, so the resolved animated transform is
the empty string; in `AnimatedElement` the empty string is falsy, so the
spread overrides the base `translate(-50%, -50%)` without concatenation,
and the element loses its default centering (an animated style with no
transform entry would have kept it). -/
theorem malformed_transform_empty_replaces_centering
    (sorted : List AnimationKeyframe) (duration frame : ℚ)
    (hall : ∀ kf ∈ sorted, parseTransform (transformArg kf) = [])
    (h2 : 2 ≤ (sorted.filter (fun kf => (styleGet kf "transform").isSome)).length) :
    resolveProp "transform" sorted duration frame = some [("transform", .str "")] ∧
    elementFinalTransform [("transform", .str "")] = .str "" ∧
    elementFinalTransform [] = .str baseTransform ∧
    CSSValue.str "" ≠ CSSValue.str baseTransform := by
  refine ⟨?_, by decide, by decide, by decide⟩
  cases hk : sorted.filter (fun kf => (styleGet kf "transform").isSome) with
  | nil =>
      rw [hk] at h2
      simp at h2
  | cons kf0 kfrest =>
      cases kfrest with
      | nil =>
          rw [hk] at h2
          simp at h2
      | cons kf1 rest =>
          have hsub : ∀ kf ∈ kf0 :: kf1 :: rest, parseTransform (transformArg kf) = [] := by
            intro kf hkf
            rw [← hk] at hkf
            exact hall kf (List.mem_filter.mp hkf).1
          simp only [resolveProp, hk,
            if_neg (show ¬ ("transform" : String) = "opacity" by decide),
            if_neg (show ¬ (("transform" : String) = "color" ∨
              ("transform" : String) = "backgroundColor") by decide),
            if_true]
          rw [resolveTransform, collectFuncs]
          rw [collectFuncs_nil_of_unparseable (kf0 :: kf1 :: rest) [] hsub]
          rfl

/-- Keyframes whose transform strings are all unparseable. -/
def exGarbageKfs : List AnimationKeyframe :=
  [⟨0, [("transform", .str "garbage")]⟩, ⟨1, [("transform", .str "spin()")]⟩]

/-- C10 witness: the garbage-transform element resolves to an empty
transform which replaces the centering transform. -/
theorem malformed_transform_empty_replaces_centering_witness :
    resolveProp "transform" exGarbageKfs 90 45 = some [("transform", .str "")] ∧
    elementFinalTransform [("transform", .str "")] = .str "" ∧
    elementFinalTransform [] = .str baseTransform ∧
    CSSValue.str "" ≠ CSSValue.str baseTransform :=
  malformed_transform_empty_replaces_centering exGarbageKfs 90 45
    (by decide) (by decide)

/-- Opacity keyframes whose values are fully non-numeric strings. -/
def exNanKfs : List AnimationKeyframe :=
  [⟨0, [("opacity", .str "abc")]⟩, ⟨1, [("opacity", .str "xyz")]⟩]

/-- C4 counterexample.  For keyframes whose opacity values are the
non-numeric strings "abc" and "xyz", the resolved opacity at frame 45 of a
90-frame scene is `NaN` — `parseFloat` produced no number, the `?? 1`
fallback (which only guards `undefined`) did not fire, and interpolation
propagated the `NaN` — not a well-defined number and not the safe default
of full opacity the claim requires. -/
theorem opacity_non_numeric_nan_counterexample :
    resolveProp "opacity" exNanKfs 90 45 = some [("opacity", .num .nan)] ∧
    parseFloatJS "abc" = .nan ∧
    JSNum.nan ≠ JSNum.fin 1 := by
  refine ⟨by decide, by decide, by decide⟩

/-- C4 amended.  Opacity values are coerced with `parseFloat(String(v))`,
which parses leniently: `v ?? 1` defaults only a missing (`undefined`)
value, and a string with a numeric prefix parses to that prefix (second
conjunct, e.g. `"12.5px" ↦ 12.5`); but a fully non-numeric string parses
to `NaN`, and for an element whose two opacity keyframes both parse to
`NaN` the resolved opacity is `NaN` at every frame — the coercion failure
propagates into the resolved style instead of falling back to a safe
default. -/
theorem opacity_non_numeric_nan_propagates
    (sorted : List AnimationKeyframe) (duration frame : ℚ)
    (kf0 kf1 : AnimationKeyframe)
    (hfilter : sorted.filter (fun kf => (styleGet kf "opacity").isSome) = [kf0, kf1])
    (hv0 : toNumber ((styleGet kf0 "opacity").getD (.num (.fin 1))) = .nan)
    (hv1 : toNumber ((styleGet kf1 "opacity").getD (.num (.fin 1))) = .nan)
    (hx : kf0.«at» * duration < kf1.«at» * duration) :
    resolveProp "opacity" sorted duration frame = some [("opacity", .num .nan)] ∧
    parseFloatJS "12.5px" = .fin (25 / 2) := by
  refine ⟨?_, by decide⟩
  simp only [resolveProp, hfilter, if_true, List.map, hv0, hv1]
  rw [interpolate_cons2 frame (kf0.«at» * duration) (kf1.«at» * duration) [] .nan .nan []
    .clamp .clamp rfl (by simp [strictlyIncreasing, hx]) (Or.inl rfl)]
  simp only [interpolateFunction, JSNum.jsEq, JSNum.add, JSNum.sub, JSNum.mul,
    if_neg (ne_of_lt hx), Bool.false_eq_true, if_false]
  rfl

/-- C4 witness: the amended claim at the concrete non-numeric element,
frame 0. -/
theorem opacity_non_numeric_nan_propagates_witness :
    resolveProp "opacity" exNanKfs 90 0 = some [("opacity", .num .nan)] ∧
    parseFloatJS "12.5px" = .fin (25 / 2) :=
  opacity_non_numeric_nan_propagates exNanKfs 90 0
    ⟨0, [("opacity", .str "abc")]⟩ ⟨1, [("opacity", .str "xyz")]⟩
    (by decide) (by decide) (by decide) (by norm_num)

end VideoPlayerModel
